import Mathlib

/-!
Shallow embedding of the `apictx` Go package (`src/apictx.go`):
request binding (query parameters and JSON body), validation, the
`HttpError` error model, and the JSON response and error writers.
-/

namespace Apictx

/-- Modelled from the spec: the JSON value domain used by the Go standard
library `encoding/json` (an external collaborator of this package),
restricted to the shapes this package reads and writes: null, booleans,
integral numbers, strings, arrays and objects. -/
inductive Json : Type where
  | null : Json
  | bool (b : Bool) : Json
  | num (n : Int) : Json
  | str (s : String) : Json
  | arr (elems : List Json) : Json
  | obj (members : List (String × Json)) : Json

/-- Decimal digit character for a digit value below ten. -/
def digitChar (d : Nat) : Char := Char.ofNat (48 + d)

/-- Fueled helper for `natToDigits`; the fuel always suffices when it
exceeds the number rendered. -/
def natToDigitsAux : Nat → Nat → List Char
  | 0, _ => []
  | fuel + 1, n =>
    if n < 10 then [digitChar n]
    else natToDigitsAux fuel (n / 10) ++ [digitChar (n % 10)]

/-- Decimal digit characters of a natural number, most significant first. -/
def natToDigits (n : Nat) : List Char := natToDigitsAux (n + 1) n

/-- Decimal rendering of an integer, with a leading minus sign if negative. -/
def intToChars (n : Int) : List Char :=
  if n < 0 then '-' :: natToDigits n.natAbs else natToDigits n.toNat

/-- JSON string escaping of one character: quotes and backslashes get a
backslash escape, everything else is emitted as is. -/
def escChar (c : Char) : List Char :=
  if c = '"' ∨ c = '\\' then ['\\', c] else [c]

/-- JSON string escaping of a character list. -/
def escChars : List Char → List Char
  | [] => []
  | c :: cs => escChar c ++ escChars cs

/-- Serialization of a JSON string literal, quotes included. -/
def serStr (s : String) : List Char := '"' :: (escChars s.data ++ ['"'])

mutual

/-- Modelled from the spec: compact serialization of a JSON value, as the
Go `encoding/json` encoder produces. -/
def serV : Json → List Char
  | .null => ['n', 'u', 'l', 'l']
  | .bool b => if b then ['t', 'r', 'u', 'e'] else ['f', 'a', 'l', 's', 'e']
  | .num n => intToChars n
  | .str s => serStr s
  | .arr l => '[' :: (serElems l ++ [']'])
  | .obj l => '\x7b' :: (serMembers l ++ ['\x7d'])

/-- Serialization of array elements, comma separated, without brackets. -/
def serElems : List Json → List Char
  | [] => []
  | [v] => serV v
  | v :: w :: rest => serV v ++ ',' :: serElems (w :: rest)

/-- Serialization of object members, comma separated, without braces. -/
def serMembers : List (String × Json) → List Char
  | [] => []
  | [(k, v)] => serStr k ++ ':' :: serV v
  | (k, v) :: m :: rest => serStr k ++ ':' :: serV v ++ ',' :: serMembers (m :: rest)

end

/-- Whether a character is a decimal digit. -/
def isDig (c : Char) : Bool := 48 ≤ c.toNat && c.toNat ≤ 57

/-- Accumulating decimal parser: consumes the maximal digit prefix. -/
def parseDigitsAux (acc : Nat) : List Char → Nat × List Char
  | [] => (acc, [])
  | c :: r =>
    if isDig c then parseDigitsAux (acc * 10 + (c.toNat - 48)) r else (acc, c :: r)

/-- Decimal parser requiring at least one digit. -/
def parseDigits : List Char → Option (Nat × List Char)
  | [] => none
  | c :: r => if isDig c then some (parseDigitsAux (c.toNat - 48) r) else none

/-- Parser for the inside of a JSON string literal, after the opening
quote; a backslash escapes the following character. -/
def parseStrChars : List Char → Option (List Char × List Char)
  | [] => none
  | c :: r =>
    if c = '"' then some ([], r)
    else if c = '\\' then
      match r with
      | [] => none
      | d :: r2 =>
        match parseStrChars r2 with
        | some (cs, rest) => some (d :: cs, rest)
        | none => none
    else
      match parseStrChars r with
      | some (cs, rest) => some (c :: cs, rest)
      | none => none

mutual

/-- Modelled from the spec: fueled recursive-descent parser for a JSON
value, the inverse of `serV`; returns the value and the unread remainder. -/
def parseV : Nat → List Char → Option (Json × List Char)
  | 0, _ => none
  | _ + 1, [] => none
  | fuel + 1, c :: r =>
    if isDig c then
      match parseDigits (c :: r) with
      | some (n, rest) => some (.num (n : Int), rest)
      | none => none
    else if c = '-' then
      match parseDigits r with
      | some (n, rest) => some (.num (-(n : Int)), rest)
      | none => none
    else if c = '"' then
      match parseStrChars r with
      | some (cs, rest) => some (.str ⟨cs⟩, rest)
      | none => none
    else if c = '[' then
      match parseElems fuel r with
      | some (vs, rest) => some (.arr vs, rest)
      | none => none
    else if c = '\x7b' then
      match parseMembers fuel r with
      | some (ms, rest) => some (.obj ms, rest)
      | none => none
    else if c = 'n' then
      match r with
      | 'u' :: 'l' :: 'l' :: rest => some (.null, rest)
      | _ => none
    else if c = 't' then
      match r with
      | 'r' :: 'u' :: 'e' :: rest => some (.bool true, rest)
      | _ => none
    else if c = 'f' then
      match r with
      | 'a' :: 'l' :: 's' :: 'e' :: rest => some (.bool false, rest)
      | _ => none
    else none

/-- Parser for the inside of a JSON array, after the opening bracket. -/
def parseElems : Nat → List Char → Option (List Json × List Char)
  | 0, _ => none
  | _ + 1, [] => none
  | fuel + 1, c :: s =>
    if c = ']' then some ([], s)
    else
      match parseV fuel (c :: s) with
      | some (v, s1) =>
        match s1 with
        | ',' :: s2 =>
          match parseElems fuel s2 with
          | some (vs, rest) => some (v :: vs, rest)
          | none => none
        | ']' :: rest => some ([v], rest)
        | _ => none
      | none => none

/-- Parser for the inside of a JSON object, after the opening brace. -/
def parseMembers : Nat → List Char → Option (List (String × Json) × List Char)
  | 0, _ => none
  | _ + 1, [] => none
  | fuel + 1, c :: s =>
    if c = '\x7d' then some ([], s)
    else if c = '"' then
      match parseStrChars s with
      | some (cs, s1) =>
        match s1 with
        | ':' :: s2 =>
          match parseV fuel s2 with
          | some (v, s3) =>
            match s3 with
            | ',' :: s4 =>
              match parseMembers fuel s4 with
              | some (ms, rest) => some ((⟨cs⟩, v) :: ms, rest)
              | none => none
            | '\x7d' :: rest => some ([(⟨cs⟩, v)], rest)
            | _ => none
          | none => none
        | _ => none
      | none => none
    else none

end

/-- Head-character guard for number parsing: maximal-munch digit reading
stops exactly when the following input does not begin with a digit. -/
def noDigitHead : List Char → Bool
  | [] => true
  | c :: _ => !isDig c

mutual

/-- Fuel sufficient for `parseV` to parse the serialization of a value. -/
def fcost : Json → Nat
  | .null => 1
  | .bool _ => 1
  | .num _ => 1
  | .str _ => 1
  | .arr l => ecost l + 1
  | .obj l => mcost l + 1

/-- Fuel sufficient for `parseElems` on serialized array elements. -/
def ecost : List Json → Nat
  | [] => 1
  | v :: vs => max (fcost v) (ecost vs) + 1

/-- Fuel sufficient for `parseMembers` on serialized object members. -/
def mcost : List (String × Json) → Nat
  | [] => 1
  | (_, v) :: ms => max (fcost v) (mcost ms) + 1

end

/-- Serialization of a JSON value to a string. -/
def serializeJson (v : Json) : String := ⟨serV v⟩

/-- Deserialization of the first JSON value in a string, ignoring any
trailing input, as a single Go decoder call does. -/
def deserializeJson (s : String) : Option Json :=
  match parseV (s.length + 1) s.data with
  | some (v, _) => some v
  | none => none

/-- Go error values as seen by this package: `*HttpError` values (the
package's typed error, `src/apictx.go` lines 36-40: a message, a wrapped
cause which may be nil, and a status code), plain errors built with
`errors.New` or `fmt.Errorf` without a wrap verb, and errors wrapping an
inner error (`fmt.Errorf` with a wrap verb), which `errors.As` unwraps. -/
inductive GoError : Type where
  | httpError (msg : String) (statusCode : Int) (cause : Option GoError)
  | plain (msg : String)
  | wrap (msg : String) (inner : GoError)

/-- Behavior of `errors.As(err, &httpErr)` for a `*HttpError` target: finds
the first `*HttpError` in the unwrap chain, yielding its message, status
and cause. -/
def errorsAsHttpError : GoError → Option (String × Int × Option GoError)
  | .httpError m s c => some (m, s, c)
  | .plain _ => none
  | .wrap _ inner => errorsAsHttpError inner

/-- Translation of `NewHttpError` (`src/apictx.go` lines 42-49): the status
defaults to 400 (`http.StatusBadRequest`) and is replaced by the variadic
argument only when exactly one value is supplied and it lies in
[200, 520]. -/
def NewHttpError (msg : String) (err : Option GoError) (statsuCode : List Int) : GoError :=
  let statusCode : Int :=
    if statsuCode.length = 1 ∧ 200 ≤ statsuCode.headD 0 ∧ statsuCode.headD 0 ≤ 520 then
      statsuCode.headD 0
    else 400
  .httpError msg statusCode err

/-- Translation of the `ApiErrorResponse` struct (`src/apictx.go` lines
29-33). The `Code` field is declared `interface\x7b\x7d` in Go but both
assignments to it in the source are integers. -/
structure ApiErrorResponse where
  code : Int
  message : String
  cause : Option GoError

/-- JSON rendering of `ApiErrorResponse` under its struct tags: `Code` is
serialized under key "code", `Message` under "message", and `Cause` is
excluded from serialization by its tag. -/
def encodeApiErrorResponse (e : ApiErrorResponse) : Json :=
  .obj [("code", .num e.code), ("message", .str e.message)]

/-- An `http.ResponseWriter` as this package drives it: settable headers,
a status line written by `WriteHeader`, and an appendable body. -/
structure ResponseWriter where
  headers : List (String × String)
  status : Option Int
  body : String

/-- Fresh response writer, before the handler writes anything. -/
def emptyWriter : ResponseWriter := ⟨[], none, ""⟩

/-- Behavior of `Header().Set(k, v)`: replaces the value of key `k`, or
appends the pair if the key is absent. -/
def headerSet (hs : List (String × String)) (k v : String) : List (String × String) :=
  match hs with
  | [] => [(k, v)]
  | (k1, v1) :: rest => if k1 = k then (k, v) :: rest else (k1, v1) :: headerSet rest k v

/-- Behavior of `Header.Get(k)`: first value for the key, or "" when the
key is absent. -/
def headerGet (hs : List (String × String)) (k : String) : String :=
  match hs with
  | [] => ""
  | (k1, v1) :: rest => if k1 = k then v1 else headerGet rest k

/-- An inbound `*http.Request` as this package reads it: method, URL,
headers, the parsed query-parameter multimap (`URL.Query()`), and the
body. -/
structure Request where
  method : String
  url : String
  headers : List (String × String)
  query : List (String × List String)
  body : String

/-- Multimap lookup on the parsed query parameters: `params[tag]` with its
`ok` flag. -/
def queryGet (q : List (String × List String)) (k : String) : Option (List String) :=
  match q with
  | [] => none
  | (k1, vs) :: rest => if k1 = k then some vs else queryGet rest k

/-- Translation of the `Context` struct (`src/apictx.go` lines 63-67); the
user is modelled by its only capability, the `ID()` string. -/
structure Context where
  currentUser : Option String
  writer : ResponseWriter
  request : Request

/-- Translation of `Context.JSON` (`src/apictx.go` lines 166-174): a zero
status becomes 200, the content type is set, the status line is written,
and the encoder appends the payload's serialization and a newline. -/
def Context.JSON (c : Context) (code : Int) (data : Json) : Context :=
  let statusCode : Int := if code = 0 then 200 else code
  let w := c.writer
  { c with
    writer :=
      { headers := headerSet w.headers "Content-Type" "application/json;charset=utf-8"
        status := some statusCode
        body := w.body ++ serializeJson data ++ "\n" } }

/-- Translation of `HandleError` (`src/apictx.go` lines 194-215): the
status starts at 500, is replaced by a single supplied override, and is
replaced again by the typed error's own status when `errors.As` finds a
`*HttpError`; the payload is `ApiErrorResponse` with code 0x6400 and the
typed error's message in the classified branch, and code 0 with message
"Internal error" otherwise. The request argument is only used for
logging, which is not modelled. -/
def HandleError (w : ResponseWriter) (r : Request) (err : GoError)
    (overRideStatusCode : List Int) : ResponseWriter :=
  let statusCode : Int :=
    if overRideStatusCode.length = 1 then overRideStatusCode.headD 0 else 500
  let res :=
    match errorsAsHttpError err with
    | some (m, s, c) => (s, ApiErrorResponse.mk 0x6400 m c)
    | none => (statusCode, ApiErrorResponse.mk 0x0 "Internal error" none)
  { headers := headerSet w.headers "Content-Type" "application/json;charset=utf-8"
    status := some res.1
    body := w.body ++ serializeJson (encodeApiErrorResponse res.2) ++ "\n" }

/-- Runtime value of a target-struct field, by reflected kind: the kinds
the coercion switch handles (`reflect.String`, `reflect.Int`) plus a
marker for every other kind, which the switch silently skips. -/
inductive FieldValue : Type where
  | vstr (s : String)
  | vint (n : Int)
  | vother
deriving DecidableEq

/-- Modelled from the spec: a per-field validation constraint of the
external `validator` library — "required" or a numeric bound. -/
inductive Constraint : Type where
  | required
  | gte (n : Int)
  | lte (n : Int)
deriving DecidableEq

/-- Modelled from the spec: whether one declared constraint holds of a
field value ("required" fails on the zero value; numeric bounds apply to
int fields). -/
def constraintHolds (v : FieldValue) : Constraint → Bool
  | .required =>
    match v with
    | .vstr s => !s.isEmpty
    | .vint n => n != 0
    | .vother => true
  | .gte m =>
    match v with
    | .vint n => decide (m ≤ n)
    | _ => true
  | .lte m =>
    match v with
    | .vint n => decide (n ≤ m)
    | _ => true

/-- One field of a caller-supplied target struct, as reflection sees it: a
field name, the `query` tag (empty when absent), the declared validation
constraints, and the current value. -/
structure Field where
  name : String
  queryTag : String
  validateTag : List Constraint
  value : FieldValue
deriving DecidableEq

/-- Modelled from the spec: the external validator applied to the bound
target, returning one offending field name per failing field, in field
order (`v.Struct(data)` followed by `e.Field()` on each entry). -/
def validateStruct (fields : List Field) : List String :=
  (fields.filter fun f => f.validateTag.any fun c => !constraintHolds f.value c).map Field.name

/-- Whether every character in the list is a decimal digit. -/
def allDigits : List Char → Bool
  | [] => true
  | c :: r => isDig c && allDigits r

/-- Value of a list of decimal digit characters, most significant first. -/
def digitsVal (ds : List Char) : Nat := ds.foldl (fun a c => a * 10 + (c.toNat - 48)) 0

/-- Modelled from the spec: Go `strconv.Atoi` base-10 parse (64-bit range
checking elided): an optional sign followed by at least one digit and
nothing else; any other shape fails with the library's message. -/
def strconvAtoi (s : String) : Except String Int :=
  let bad : Except String Int :=
    .error ("strconv.Atoi: parsing \"" ++ s ++ "\": invalid syntax")
  match s.data with
  | [] => bad
  | '-' :: ds => if ds ≠ [] ∧ allDigits ds then .ok (-(digitsVal ds : Int)) else bad
  | '+' :: ds => if ds ≠ [] ∧ allDigits ds then .ok (digitsVal ds) else bad
  | ds => if allDigits ds then .ok (digitsVal ds) else bad

/-- One iteration of the `BindQueryParams` field loop (`src/apictx.go`
lines 133-153): a field with a non-empty `query` tag whose parameter is
present with at least one value receives the first value — assigned
directly for a string field, parsed base-10 for an int field (a parse
failure produces the loop's error), and skipped for any other kind. -/
def bindField (f : Field) (params : List (String × List String)) : Field × Option String :=
  if f.queryTag ≠ "" then
    match queryGet params f.queryTag with
    | some (paramValue :: _) =>
      match f.value with
      | .vstr _ => ({ f with value := .vstr paramValue }, none)
      | .vint _ =>
        match strconvAtoi paramValue with
        | .ok intValue => ({ f with value := .vint intValue }, none)
        | .error e =>
          (f, some ("failed to convert parameter " ++ f.queryTag ++ " to int: " ++ e))
      | .vother => (f, none)
    | _ => (f, none)
  else (f, none)

/-- Translation of `Context.BindQueryParams` (`src/apictx.go` lines
129-156): the field loop, returning the mutated fields and the first
conversion error; the loop returns as soon as a conversion fails, leaving
later fields untouched. -/
def BindQueryParams : List Field → List (String × List String) → List Field × Option String
  | [], _ => ([], none)
  | f :: rest, params =>
    match bindField f params with
    | (f1, some e) => (f1 :: rest, some e)
    | (f1, none) =>
      let r1 := BindQueryParams rest params
      (f1 :: r1.1, r1.2)

/-- Decoder field update for one JSON member, per `encoding/json`: a
string field accepts a JSON string, an int field a JSON number; any other
combination is a decode error. -/
def setFieldFromJson (f : Field) (j : Json) : Option Field :=
  match f.value, j with
  | .vstr _, .str s => some { f with value := .vstr s }
  | .vint _, .num n => some { f with value := .vint n }
  | _, _ => none

/-- ASCII lower-casing of one character, for the decoder's
case-insensitive key match. -/
def lowerChar (c : Char) : Char :=
  if 'A' ≤ c ∧ c ≤ 'Z' then Char.ofNat (c.toNat + 32) else c

/-- ASCII lower-casing of a character list. -/
def lowerChars : List Char → List Char
  | [] => []
  | c :: r => lowerChar c :: lowerChars r

/-- Case-insensitive member lookup, as the Go decoder matches JSON object
keys to struct field names (modelled for ASCII keys). -/
def jsonLookup (ms : List (String × Json)) (name : String) : Option Json :=
  match ms with
  | [] => none
  | (k, v) :: rest =>
    if lowerChars k.data = lowerChars name.data then some v else jsonLookup rest name

/-- Modelled from the spec: the decoder sets exactly the fields the JSON
payload mentions, leaving every other field untouched. -/
def decodeFields : List Field → List (String × Json) → Option (List Field)
  | [], _ => some []
  | f :: rest, ms =>
    match jsonLookup ms f.name with
    | none =>
      match decodeFields rest ms with
      | some rest1 => some (f :: rest1)
      | none => none
    | some j =>
      match setFieldFromJson f j with
      | some f1 =>
        match decodeFields rest ms with
        | some rest1 => some (f1 :: rest1)
        | none => none
      | none => none

/-- Translation of `Context.BindJSONBody` (`src/apictx.go` lines 158-164):
decode the body into the target, prefixing any decoder failure with
"failed to decode JSON body: ". A body that is not a single JSON object
matching the target's field types is a decode failure. -/
def BindJSONBody (fields : List Field) (body : String) : List Field × Option String :=
  match deserializeJson body with
  | some (.obj ms) =>
    match decodeFields fields ms with
    | some fields1 => (fields1, none)
    | none => (fields, some "failed to decode JSON body: json: cannot unmarshal value into Go struct field")
  | some _ => (fields, some "failed to decode JSON body: json: cannot unmarshal value into Go value")
  | none => (fields, some "failed to decode JSON body: unexpected end of JSON input")

/-- Translation of `Context.BindWithoutValidation` (`src/apictx.go` lines
107-127): bind query parameters, then — only when the Content-Type header
is exactly "application/json" — decode the body; any other content type
leaves the target as the query step produced it and yields no error. -/
def Context.BindWithoutValidation (c : Context) (fields : List Field) :
    List Field × Option String :=
  let queryParams := c.request.query
  match BindQueryParams fields queryParams with
  | (f1, some err) => (f1, some err)
  | (f1, none) =>
    let contentType := headerGet c.request.headers "Content-Type"
    if contentType = "application/json" then BindJSONBody f1 c.request.body
    else (f1, none)

/-- Translation of `Context.Bind` (`src/apictx.go` lines 85-105): run
`BindWithoutValidation`; wrap any failure as
`NewHttpError("failed to read inputs", err, 400)`; otherwise validate and,
on constraint failures, return an `HttpError` with status 400, nil cause
and message "validation error(s): " followed by the per-field diagnostics
joined with ", ". -/
def Context.Bind (c : Context) (fields : List Field) : List Field × Option GoError :=
  match c.BindWithoutValidation fields with
  | (f1, some err) =>
    (f1, some (NewHttpError "failed to read inputs" (some (.plain err)) [400]))
  | (f1, none) =>
    match validateStruct f1 with
    | [] => (f1, none)
    | fs =>
      let errMsgs := fs.map fun fname => "validation failed for " ++ fname
      (f1, some (NewHttpError
        ("validation error(s): " ++ String.intercalate ", " errMsgs) none [400]))

/-- Members of the decoded JSON body object, empty when the body is not a
JSON object. -/
def bodyMembers (body : String) : List (String × Json) :=
  match deserializeJson body with
  | some (.obj ms) => ms
  | _ => []

/-- Concrete sample request: a GET with no headers, query or body. -/
def sampleRequest : Request := ⟨"GET", "/demo", [], [], ""⟩

/-- Concrete sample target field: a string field bound to query key
"name". -/
def nameField : Field := ⟨"Name", "name", [], .vstr ""⟩

/-- Concrete sample target field: an int field bound to query key
"age". -/
def ageField : Field := ⟨"Age", "age", [], .vint 0⟩

/-- Concrete sample target field: an unbound required string field. -/
def requiredNameField : Field := ⟨"Name", "", [.required], .vstr ""⟩

/-! Lemmas: decimal digits and number parsing. -/

theorem digitChar_toNat (d : Nat) (h : d < 10) : (digitChar d).toNat = 48 + d := by
  interval_cases d <;> decide

theorem isDig_digitChar (d : Nat) (h : d < 10) : isDig (digitChar d) = true := by
  interval_cases d <;> decide

theorem natToDigitsAux_irrel (f1 : Nat) : ∀ f2 n, n < f1 → n < f2 →
    natToDigitsAux f1 n = natToDigitsAux f2 n := by
  induction f1 with
  | zero => intro f2 n h1 _; omega
  | succ f ih =>
    intro f2 n h1 h2
    cases f2 with
    | zero => omega
    | succ f2 =>
      by_cases hn : n < 10
      · simp [natToDigitsAux, hn]
      · have hdiv : n / 10 < n := Nat.div_lt_self (by omega) (by omega)
        simp only [natToDigitsAux, if_neg hn]
        rw [ih f2 (n / 10) (by omega) (by omega)]

theorem natToDigits_lt (n : Nat) (h : n < 10) : natToDigits n = [digitChar n] := by
  simp [natToDigits, natToDigitsAux, h]

theorem natToDigits_ge (n : Nat) (h : 10 ≤ n) :
    natToDigits n = natToDigits (n / 10) ++ [digitChar (n % 10)] := by
  have hdiv : n / 10 < n := Nat.div_lt_self (by omega) (by omega)
  conv_lhs => rw [natToDigits]
  simp only [natToDigitsAux, if_neg (show ¬ n < 10 by omega)]
  rw [natToDigitsAux_irrel n (n / 10 + 1) (n / 10) (by omega) (by omega)]
  rfl

theorem allDigits_append (a b : List Char) :
    allDigits (a ++ b) = (allDigits a && allDigits b) := by
  induction a with
  | nil => simp [allDigits]
  | cons c a ih => simp [allDigits, ih, Bool.and_assoc]

theorem natToDigits_allDigits (n : Nat) : allDigits (natToDigits n) = true := by
  induction n using Nat.strong_induction_on with
  | _ n ih =>
    by_cases h : n < 10
    · rw [natToDigits_lt n h]
      simp [allDigits, isDig_digitChar n h]
    · have hdiv : n / 10 < n := Nat.div_lt_self (by omega) (by omega)
      rw [natToDigits_ge n (by omega), allDigits_append, ih (n / 10) hdiv]
      simp [allDigits, isDig_digitChar (n % 10) (by omega)]

theorem natToDigits_ne_nil (n : Nat) : natToDigits n ≠ [] := by
  by_cases h : n < 10
  · rw [natToDigits_lt n h]; simp
  · rw [natToDigits_ge n (by omega)]; simp

theorem natToDigits_foldl (n : Nat) : ∀ acc,
    (natToDigits n).foldl (fun a c => a * 10 + (c.toNat - 48)) acc =
      acc * 10 ^ (natToDigits n).length + n := by
  induction n using Nat.strong_induction_on with
  | _ n ih =>
    intro acc
    by_cases h : n < 10
    · rw [natToDigits_lt n h]
      simp [digitChar_toNat n h]
    · have hdiv : n / 10 < n := Nat.div_lt_self (by omega) (by omega)
      rw [natToDigits_ge n (by omega), List.foldl_append, ih (n / 10) hdiv,
        List.length_append]
      simp only [List.foldl_cons, List.foldl_nil, List.length_cons, List.length_nil,
        Nat.zero_add]
      rw [digitChar_toNat (n % 10) (by omega), pow_succ, ← mul_assoc]
      have hdm := Nat.div_add_mod n 10
      generalize acc * 10 ^ (natToDigits (n / 10)).length = m
      omega

theorem parseDigitsAux_digits (ds : List Char) : ∀ rest acc, allDigits ds = true →
    parseDigitsAux acc (ds ++ rest) =
      parseDigitsAux (ds.foldl (fun a c => a * 10 + (c.toNat - 48)) acc) rest := by
  induction ds with
  | nil => intro rest acc _; simp
  | cons c ds ih =>
    intro rest acc h
    rw [allDigits, Bool.and_eq_true] at h
    simp only [List.cons_append, parseDigitsAux, if_pos h.1, List.foldl_cons]
    exact ih rest _ h.2

theorem parseDigitsAux_stop (rest : List Char) (acc : Nat) (h : noDigitHead rest = true) :
    parseDigitsAux acc rest = (acc, rest) := by
  cases rest with
  | nil => rfl
  | cons c r =>
    rw [noDigitHead, Bool.not_eq_eq_eq_not, Bool.not_true] at h
    simp [parseDigitsAux, h]

theorem parseDigits_natToDigits (n : Nat) (rest : List Char) (h : noDigitHead rest = true) :
    parseDigits (natToDigits n ++ rest) = some (n, rest) := by
  obtain ⟨c, ds, hcd⟩ : ∃ c ds, natToDigits n = c :: ds := by
    cases hnd : natToDigits n with
    | nil => exact absurd hnd (natToDigits_ne_nil n)
    | cons c ds => exact ⟨c, ds, rfl⟩
  have hall : allDigits (c :: ds) = true := hcd ▸ natToDigits_allDigits n
  rw [allDigits, Bool.and_eq_true] at hall
  have hfold : ds.foldl (fun a c => a * 10 + (c.toNat - 48)) (c.toNat - 48) = n := by
    have h0 := natToDigits_foldl n 0
    rw [hcd] at h0
    simpa using h0
  rw [hcd]
  simp only [List.cons_append, parseDigits, if_pos hall.1]
  rw [parseDigitsAux_digits ds rest _ hall.2, parseDigitsAux_stop rest _ h, hfold]

/-! Lemmas: string escaping and parser dispatch. -/

theorem parseStrChars_esc (cs : List Char) : ∀ rest,
    parseStrChars (escChars cs ++ '"' :: rest) = some (cs, rest) := by
  induction cs with
  | nil =>
    intro rest
    show parseStrChars ('"' :: rest) = some ([], rest)
    rw [parseStrChars.eq_def]
    simp
  | cons c cs ih =>
    intro rest
    by_cases hc : c = '"' ∨ c = '\\'
    · have h1 : escChars (c :: cs) ++ '"' :: rest =
          '\\' :: c :: (escChars cs ++ '"' :: rest) := by
        simp [escChars, escChar, hc]
      rw [h1, parseStrChars.eq_def]
      simp [ih rest]
    · have hq : c ≠ '"' := fun h => hc (Or.inl h)
      have hb : c ≠ '\\' := fun h => hc (Or.inr h)
      have h1 : escChars (c :: cs) ++ '"' :: rest = c :: (escChars cs ++ '"' :: rest) := by
        simp [escChars, escChar, hc]
      rw [h1, parseStrChars.eq_def]
      simp [hq, hb, ih rest]

theorem ne_of_isDig (c : Char) (hc : isDig c = true) {d : Char} (hd : isDig d = false) :
    c ≠ d := by
  intro h
  rw [h, hd] at hc
  cases hc

theorem natToDigits_cons (n : Nat) : ∃ c ds, natToDigits n = c :: ds ∧ isDig c = true := by
  cases hnd : natToDigits n with
  | nil => exact absurd hnd (natToDigits_ne_nil n)
  | cons c ds =>
    have hall := natToDigits_allDigits n
    rw [hnd, allDigits, Bool.and_eq_true] at hall
    exact ⟨c, ds, rfl, hall.1⟩

theorem serV_head (v : Json) : ∃ c cs, serV v = c :: cs ∧ c ≠ ']' ∧ c ≠ '\x7d' := by
  cases v with
  | null => exact ⟨'n', _, rfl, by decide, by decide⟩
  | bool b => cases b with
    | false => exact ⟨'f', _, rfl, by decide, by decide⟩
    | true => exact ⟨'t', _, rfl, by decide, by decide⟩
  | num n =>
    by_cases hneg : n < 0
    · exact ⟨'-', natToDigits n.natAbs, by simp [serV, intToChars, hneg], by decide, by decide⟩
    · obtain ⟨c, ds, hcd, hdig⟩ := natToDigits_cons n.toNat
      exact ⟨c, ds, by simp [serV, intToChars, hneg, hcd],
        ne_of_isDig c hdig (by decide), ne_of_isDig c hdig (by decide)⟩
  | str s => exact ⟨'"', _, rfl, by decide, by decide⟩
  | arr l => exact ⟨'[', _, rfl, by decide, by decide⟩
  | obj l => exact ⟨'\x7b', _, rfl, by decide, by decide⟩

theorem parseV_neg (fuel : Nat) (r : List Char) :
    parseV (fuel + 1) ('-' :: r) =
      match parseDigits r with
      | some (m, r1) => some (.num (-(m : Int)), r1)
      | none => none := rfl

theorem parseV_digit (fuel : Nat) (c : Char) (r : List Char) (h : isDig c = true) :
    parseV (fuel + 1) (c :: r) =
      match parseDigits (c :: r) with
      | some (m, r1) => some (.num (m : Int), r1)
      | none => none := by
  simp only [parseV, if_pos h]

theorem parseV_str (fuel : Nat) (r : List Char) :
    parseV (fuel + 1) ('"' :: r) =
      match parseStrChars r with
      | some (cs, rest) => some (.str ⟨cs⟩, rest)
      | none => none := rfl

theorem parseV_arr (fuel : Nat) (r : List Char) :
    parseV (fuel + 1) ('[' :: r) =
      match parseElems fuel r with
      | some (vs, rest) => some (.arr vs, rest)
      | none => none := rfl

theorem parseV_obj (fuel : Nat) (r : List Char) :
    parseV (fuel + 1) ('\x7b' :: r) =
      match parseMembers fuel r with
      | some (ms, rest) => some (.obj ms, rest)
      | none => none := rfl

theorem parseElems_cons (fuel : Nat) (c : Char) (s : List Char) (h : c ≠ ']') :
    parseElems (fuel + 1) (c :: s) =
      match parseV fuel (c :: s) with
      | some (v, s1) =>
        match s1 with
        | ',' :: s2 =>
          match parseElems fuel s2 with
          | some (vs, rest) => some (v :: vs, rest)
          | none => none
        | ']' :: rest => some ([v], rest)
        | _ => none
      | none => none := by
  simp only [parseElems, if_neg h]

theorem parseMembers_key (fuel : Nat) (s : List Char) :
    parseMembers (fuel + 1) ('"' :: s) =
      match parseStrChars s with
      | some (cs, s1) =>
        match s1 with
        | ':' :: s2 =>
          match parseV fuel s2 with
          | some (v, s3) =>
            match s3 with
            | ',' :: s4 =>
              match parseMembers fuel s4 with
              | some (ms, rest) => some ((⟨cs⟩, v) :: ms, rest)
              | none => none
            | '\x7d' :: rest => some ([(⟨cs⟩, v)], rest)
            | _ => none
          | none => none
        | _ => none
      | none => none := rfl

/-! Lemmas: parser fuel costs. -/

theorem fcost_pos (v : Json) : 1 ≤ fcost v := by
  cases v <;> simp [fcost]

theorem ecost_pos (l : List Json) : 1 ≤ ecost l := by
  cases l <;> simp [ecost]

theorem mcost_pos (l : List (String × Json)) : 1 ≤ mcost l := by
  cases l with
  | nil => simp [mcost]
  | cons m ms => obtain ⟨k, v⟩ := m; simp [mcost]

theorem json_sizeOf_pos (v : Json) : 1 ≤ sizeOf v := by
  cases v <;> simp

theorem ecost_cons (v : Json) (vs : List Json) :
    ecost (v :: vs) = max (fcost v) (ecost vs) + 1 := by
  rw [ecost]

theorem mcost_cons (k : String) (v : Json) (ms : List (String × Json)) :
    mcost ((k, v) :: ms) = max (fcost v) (mcost ms) + 1 := by
  rw [mcost]

theorem cost_le_len (k : Nat) :
    (∀ v : Json, sizeOf v ≤ k → fcost v ≤ (serV v).length + 1) ∧
    (∀ l : List Json, sizeOf l ≤ k → ecost l ≤ (serElems l).length + 2) ∧
    (∀ l : List (String × Json), sizeOf l ≤ k → mcost l ≤ (serMembers l).length + 2) := by
  induction k with
  | zero =>
    refine ⟨fun v h => ?_, fun l h => ?_, fun l h => ?_⟩
    · exact absurd h (by have := json_sizeOf_pos v; omega)
    · exfalso; cases l <;> simp at h
    · exfalso; cases l <;> simp at h
  | succ k ih =>
    obtain ⟨ihV, ihE, ihM⟩ := ih
    refine ⟨fun v h => ?_, fun l h => ?_, fun l h => ?_⟩
    · cases v with
      | null => simp [fcost, serV]
      | bool b => cases b <;> simp [fcost, serV]
      | num n => simp [fcost]
      | str s => simp [fcost]
      | arr l =>
        have hl : sizeOf l ≤ k := by simp at h; omega
        have := ihE l hl
        simp [fcost, serV]
        omega
      | obj l =>
        have hl : sizeOf l ≤ k := by simp at h; omega
        have := ihM l hl
        simp [fcost, serV]
        omega
    · cases l with
      | nil => simp [ecost, serElems]
      | cons v vs =>
        have hv : sizeOf v ≤ k := by
          simp at h
          have := List.cons.sizeOf_spec v vs
          omega
        have hvs : sizeOf vs ≤ k := by
          have := json_sizeOf_pos v
          simp at h
          omega
        have h1 := ihV v hv
        have h2 := ihE vs hvs
        cases vs with
        | nil =>
          simp [ecost, serElems, ecost] at *
          omega
        | cons w ws =>
          simp [ecost, serElems] at *
          omega
    · cases l with
      | nil => simp [mcost, serMembers]
      | cons m ms =>
        obtain ⟨key, v⟩ := m
        have hv : sizeOf v ≤ k := by simp at h; omega
        have hms : sizeOf ms ≤ k := by
          have := json_sizeOf_pos v
          simp at h
          omega
        have h1 := ihV v hv
        have h2 := ihM ms hms
        cases ms with
        | nil =>
          simp [mcost, serMembers, serStr] at *
          omega
        | cons m2 ms2 =>
          obtain ⟨key2, v2⟩ := m2
          simp [mcost, serMembers, serStr] at *
          omega

theorem fcost_le (v : Json) : fcost v ≤ (serV v).length + 1 :=
  (cost_le_len (sizeOf v)).1 v le_rfl

/-! The serializer-parser round trip. -/

theorem parse_ser (fuel : Nat) :
    (∀ v : Json, ∀ rest, fcost v ≤ fuel → noDigitHead rest = true →
      parseV fuel (serV v ++ rest) = some (v, rest)) ∧
    (∀ l : List Json, ∀ rest, ecost l ≤ fuel →
      parseElems fuel (serElems l ++ ']' :: rest) = some (l, rest)) ∧
    (∀ l : List (String × Json), ∀ rest, mcost l ≤ fuel →
      parseMembers fuel (serMembers l ++ '\x7d' :: rest) = some (l, rest)) := by
  induction fuel with
  | zero =>
    refine ⟨fun v rest h _ => ?_, fun l rest h => ?_, fun l rest h => ?_⟩
    · exact absurd h (by have := fcost_pos v; omega)
    · exact absurd h (by have := ecost_pos l; omega)
    · exact absurd h (by have := mcost_pos l; omega)
  | succ fuel ih =>
    obtain ⟨ihV, ihE, ihM⟩ := ih
    refine ⟨fun v rest hc hrest => ?_, fun l rest hc => ?_, fun l rest hc => ?_⟩
    · cases v with
      | null => rfl
      | bool b => cases b <;> rfl
      | num n =>
        by_cases hneg : n < 0
        · have h1 : serV (.num n) ++ rest = '-' :: (natToDigits n.natAbs ++ rest) := by
            simp [serV, intToChars, hneg]
          rw [h1, parseV_neg, parseDigits_natToDigits n.natAbs rest hrest]
          have h2 : -((n.natAbs : Nat) : Int) = n := by omega
          simp only [h2]
        · have h1 : serV (.num n) ++ rest = natToDigits n.toNat ++ rest := by
            simp [serV, intToChars, hneg]
          obtain ⟨c, ds, hcd, hdig⟩ := natToDigits_cons n.toNat
          rw [h1, hcd, List.cons_append, parseV_digit fuel c (ds ++ rest) hdig,
            ← List.cons_append, ← hcd, parseDigits_natToDigits n.toNat rest hrest]
          have h2 : ((n.toNat : Nat) : Int) = n := by omega
          simp only [h2]
      | str s =>
        have h1 : serV (.str s) ++ rest = '"' :: (escChars s.data ++ '"' :: rest) := by
          simp [serV, serStr]
        rw [h1, parseV_str, parseStrChars_esc s.data rest]
      | arr l =>
        have hl : ecost l ≤ fuel := by simp [fcost] at hc; omega
        have h1 : serV (.arr l) ++ rest = '[' :: (serElems l ++ ']' :: rest) := by
          simp [serV]
        rw [h1, parseV_arr, ihE l rest hl]
      | obj l =>
        have hl : mcost l ≤ fuel := by simp [fcost] at hc; omega
        have h1 : serV (.obj l) ++ rest = '\x7b' :: (serMembers l ++ '\x7d' :: rest) := by
          simp [serV]
        rw [h1, parseV_obj, ihM l rest hl]
    · cases l with
      | nil =>
        show parseElems (fuel + 1) (']' :: rest) = some ([], rest)
        rfl
      | cons v vs =>
        obtain ⟨c, cs, hcd, hne1, hne2⟩ := serV_head v
        cases vs with
        | nil =>
          have hfv : fcost v ≤ fuel := by simp [ecost] at hc; omega
          have h1 : serElems [v] ++ ']' :: rest = c :: (cs ++ ']' :: rest) := by
            simp [serElems, hcd]
          rw [h1, parseElems_cons fuel c _ hne1, ← List.cons_append, ← hcd,
            ihV v (']' :: rest) hfv rfl]
          rfl
        | cons w ws =>
          have hle : fcost v ≤ fuel ∧ ecost (w :: ws) ≤ fuel := by
            rw [ecost_cons] at hc; omega
          have h1 : serElems (v :: w :: ws) ++ ']' :: rest =
              c :: (cs ++ (',' :: (serElems (w :: ws) ++ ']' :: rest))) := by
            simp [serElems, hcd]
          rw [h1, parseElems_cons fuel c _ hne1, ← List.cons_append, ← hcd,
            ihV v (',' :: (serElems (w :: ws) ++ ']' :: rest)) hle.1 rfl]
          simp only [ihE (w :: ws) rest hle.2]
    · cases l with
      | nil =>
        show parseMembers (fuel + 1) ('\x7d' :: rest) = some ([], rest)
        rfl
      | cons m ms =>
        obtain ⟨key, v⟩ := m
        cases ms with
        | nil =>
          have hfv : fcost v ≤ fuel := by simp [mcost] at hc; omega
          have h1 : serMembers [(key, v)] ++ '\x7d' :: rest =
              '"' :: (escChars key.data ++ '"' :: (':' :: (serV v ++ '\x7d' :: rest))) := by
            simp [serMembers, serStr]
          rw [h1, parseMembers_key, parseStrChars_esc key.data]
          simp only [ihV v ('\x7d' :: rest) hfv rfl]
        | cons m2 ms2 =>
          have hle : fcost v ≤ fuel ∧ mcost (m2 :: ms2) ≤ fuel := by
            rw [mcost_cons] at hc; omega
          have h1 : serMembers ((key, v) :: m2 :: ms2) ++ '\x7d' :: rest =
              '"' :: (escChars key.data ++ '"' :: (':' :: (serV v ++
                (',' :: (serMembers (m2 :: ms2) ++ '\x7d' :: rest))))) := by
            simp [serMembers, serStr]
          rw [h1, parseMembers_key, parseStrChars_esc key.data]
          simp only [ihV v (',' :: (serMembers (m2 :: ms2) ++ '\x7d' :: rest)) hle.1 rfl]
          simp only [ihM (m2 :: ms2) rest hle.2]

/-- Round trip of the modelled encoder and decoder: decoding an encoded
value (with the encoder's trailing newline) returns the value. -/
theorem deserialize_serialize (v : Json) :
    deserializeJson (serializeJson v ++ "\n") = some v := by
  have hdata : (serializeJson v ++ "\n").data = serV v ++ ['\n'] := by
    simp [serializeJson]
  have hlen : (serializeJson v ++ "\n").length = (serV v).length + 1 := by
    rw [String.length, hdata]
    simp
  have hfuel : fcost v ≤ (serV v).length + 2 := by
    have := fcost_le v
    omega
  have hparse := (parse_ser ((serV v).length + 2)).1 v ['\n'] hfuel rfl
  rw [deserializeJson, hdata, hlen]
  rw [show (serV v).length + 1 + 1 = (serV v).length + 2 from rfl, hparse]

/-! Lemmas: response writer and binding helpers. -/

theorem headerGet_headerSet (hs : List (String × String)) (k v : String) :
    headerGet (headerSet hs k v) k = v := by
  induction hs with
  | nil => simp [headerSet, headerGet]
  | cons p rest ih =>
    obtain ⟨k1, v1⟩ := p
    by_cases h : k1 = k
    · simp [headerSet, headerGet, h]
    · simp [headerSet, headerGet, h, ih]

/-! Claim theorems. -/

/-- C7: `NewHttpError(msg, cause, status...)` stores the message and the
cause unchanged; with exactly one supplied status inside [200, 520] the
stored status is that value, and with no supplied status — or a single
out-of-range one such as 999 — it falls back to 400. -/
theorem C7_newHttpError_status (msg : String) (cause : Option GoError) (s : Int) :
    (200 ≤ s → s ≤ 520 → NewHttpError msg cause [s] = .httpError msg s cause) ∧
    (s < 200 ∨ 520 < s → NewHttpError msg cause [s] = .httpError msg 400 cause) ∧
    NewHttpError msg cause [] = .httpError msg 400 cause := by
  refine ⟨fun h1 h2 => ?_, fun h => ?_, rfl⟩
  · simp [NewHttpError, h1, h2]
  · have hcond : ¬ (([s] : List Int).length = 1 ∧
        200 ≤ ([s] : List Int).headD 0 ∧ ([s] : List Int).headD 0 ≤ 520) := by
      simp
      omega
    simp only [NewHttpError, if_neg hcond]

/-- Witness for C7 at the concrete statuses 404 (in range), 999 (out of
range, spec's own example) and no supplied status. -/
theorem C7_newHttpError_status_witness :
    NewHttpError "x" none [404] = .httpError "x" 404 none ∧
    NewHttpError "x" none [999] = .httpError "x" 400 none ∧
    NewHttpError "bad input" (some (.plain "cause")) [] =
      .httpError "bad input" 400 (some (.plain "cause")) :=
  ⟨(C7_newHttpError_status "x" none 404).1 (by decide) (by decide),
   (C7_newHttpError_status "x" none 999).2.1 (Or.inr (by decide)),
   (C7_newHttpError_status "bad input" (some (.plain "cause")) 0).2.2⟩

/-- C10: two or more variadic status values are all ignored:
`NewHttpError` stores the default 400 even when every supplied value is
in [200, 520], and `HandleError` behaves exactly as when called with no
override, so its status computation falls back to the default 500 — the
response status whenever the error is unclassified. -/
theorem C10_variadic_ignored (ov : List Int) (h : 2 ≤ ov.length) :
    (∀ msg cause, NewHttpError msg cause ov = .httpError msg 400 cause) ∧
    (∀ w r err, HandleError w r err ov = HandleError w r err []) ∧
    (∀ w r err, errorsAsHttpError err = none →
      (HandleError w r err ov).status = some 500) := by
  have hne : ¬ ov.length = 1 := by omega
  refine ⟨fun msg cause => ?_, fun w r err => ?_, fun w r err herr => ?_⟩
  · simp [NewHttpError, hne]
  · simp [HandleError, hne]
  · simp [HandleError, hne, herr]

/-- Witness for C10 at the two in-range overrides 201 and 202. -/
theorem C10_variadic_ignored_witness :
    2 ≤ ([201, 202] : List Int).length ∧
    NewHttpError "x" none [201, 202] = .httpError "x" 400 none ∧
    (HandleError emptyWriter sampleRequest (.plain "boom") [201, 202]).status = some 500 :=
  ⟨by decide, (C10_variadic_ignored [201, 202] (by decide)).1 "x" none,
   (C10_variadic_ignored [201, 202] (by decide)).2.2 emptyWriter sampleRequest
     (.plain "boom") rfl⟩

/-- C1 (amended): for an error that is not and does not wrap a
`*HttpError`, `HandleError` emits exactly the payload with code 0 and
message "Internal error"; the response status is 500 when no single
override status is supplied, but a single supplied override value becomes
the response status even in this unclassified branch (the claim's
"regardless of any supplied override" does not hold for the status). -/
theorem C1_handleError_unclassified (w : ResponseWriter) (r : Request) (err : GoError)
    (ov : List Int) (h : errorsAsHttpError err = none) :
    (HandleError w r err ov).body =
      w.body ++ serializeJson (.obj [("code", .num 0), ("message", .str "Internal error")])
        ++ "\n" ∧
    (HandleError w r err ov).status = some (if ov.length = 1 then ov.headD 0 else 500) := by
  constructor <;> simp [HandleError, h, encodeApiErrorResponse]

/-- C1 counterexample: with the unclassified error `errors.New("boom")`
and the single override status 404, `HandleError` writes response status
404, not 500. -/
theorem C1_handleError_unclassified_counterexample :
    (HandleError emptyWriter sampleRequest (.plain "boom") [404]).status = some 404 ∧
    (404 : Int) ≠ 500 :=
  ⟨rfl, by decide⟩

/-- Witness for C1 (amended) with no override: the unclassified payload
and the default status 500. -/
theorem C1_handleError_unclassified_witness :
    (HandleError emptyWriter sampleRequest (.plain "boom") []).body =
      emptyWriter.body ++
        serializeJson (.obj [("code", .num 0), ("message", .str "Internal error")]) ++ "\n" ∧
    (HandleError emptyWriter sampleRequest (.plain "boom") []).status = some 500 := by
  have h := C1_handleError_unclassified emptyWriter sampleRequest (.plain "boom") [] rfl
  exact ⟨h.1, by simpa using h.2⟩

/-- C5: for an error that is or wraps a `*HttpError`, `HandleError` uses
the typed error's own status as the response status and emits the payload
with the fixed classified code 0x6400 and the typed error's message;
0x6400 is distinct from the unclassified code 0, and in both branches the
written body is the serialization of an object holding exactly a code and
a message — the cause is never serialized. -/
theorem C5_handleError_classified (w : ResponseWriter) (r : Request) (err : GoError)
    (ov : List Int) (m : String) (s : Int) (cause : Option GoError)
    (h : errorsAsHttpError err = some (m, s, cause)) :
    (HandleError w r err ov).status = some s ∧
    (HandleError w r err ov).body =
      w.body ++ serializeJson (.obj [("code", .num 0x6400), ("message", .str m)]) ++ "\n" ∧
    (0x6400 : Int) ≠ 0 ∧
    (∀ err2 ov2, ∃ code msg, (HandleError w r err2 ov2).body =
      w.body ++ serializeJson (.obj [("code", .num code), ("message", .str msg)]) ++ "\n") := by
  refine ⟨by simp [HandleError, h], by simp [HandleError, h, encodeApiErrorResponse],
    by decide, fun err2 ov2 => ?_⟩
  rcases h2 : errorsAsHttpError err2 with - | ⟨m2, s2, c2⟩
  · exact ⟨0, "Internal error", by simp [HandleError, h2, encodeApiErrorResponse]⟩
  · exact ⟨0x6400, m2, by simp [HandleError, h2, encodeApiErrorResponse]⟩

/-- Witness for C5 at the spec's example: a typed error with status 404
and message "not found", wrapped once. -/
theorem C5_handleError_classified_witness :
    (HandleError emptyWriter sampleRequest
        (.wrap "outer" (.httpError "not found" 404 none)) []).status = some 404 ∧
    (HandleError emptyWriter sampleRequest
        (.wrap "outer" (.httpError "not found" 404 none)) []).body =
      emptyWriter.body ++
        serializeJson (.obj [("code", .num 0x6400), ("message", .str "not found")]) ++ "\n" := by
  have h := C5_handleError_classified emptyWriter sampleRequest
    (.wrap "outer" (.httpError "not found" 404 none)) [] "not found" 404 none rfl
  exact ⟨h.1, h.2.1⟩

/-- C8: `Context.JSON(code, v)` sets the Content-Type header to
"application/json;charset=utf-8", writes status `code` — defaulting to
200 when `code` is 0 — and then the serialization of `v`; on a fresh
writer the written body deserializes back to `v` (round trip), and with
code 200 the written status is exactly 200. -/
theorem C8_json_roundtrip (c : Context) (code : Int) (v : Json) :
    headerGet (c.JSON code v).writer.headers "Content-Type" =
      "application/json;charset=utf-8" ∧
    (c.JSON code v).writer.status = some (if code = 0 then 200 else code) ∧
    (c.JSON code v).writer.body = c.writer.body ++ serializeJson v ++ "\n" ∧
    (c.writer.body = "" → deserializeJson (c.JSON code v).writer.body = some v) ∧
    (c.JSON 200 v).writer.status = some 200 := by
  refine ⟨?_, ?_, ?_, fun hw => ?_, ?_⟩
  · simp [Context.JSON, headerGet_headerSet]
  · simp [Context.JSON]
  · simp [Context.JSON]
  · simp only [Context.JSON, hw]
    exact deserialize_serialize v
  · norm_num [Context.JSON]

/-- Witness for C8 on a fresh writer with status 200 and payload
`"ok"`. -/
theorem C8_json_roundtrip_witness :
    (Context.JSON ⟨none, emptyWriter, sampleRequest⟩ 200 (.str "ok")).writer.status =
      some 200 ∧
    deserializeJson
        (Context.JSON ⟨none, emptyWriter, sampleRequest⟩ 200 (.str "ok")).writer.body =
      some (.str "ok") := by
  have h := C8_json_roundtrip ⟨none, emptyWriter, sampleRequest⟩ 200 (.str "ok")
  exact ⟨h.2.2.2.2, h.2.2.2.1 rfl⟩

/-- C6: the JSON body decoder runs iff the Content-Type header is exactly
"application/json": under that header `BindWithoutValidation` continues
as the body decode of the query-bound fields, and under any other header
value the body step is silently skipped, returning the query-bound fields
unchanged with no error. -/
theorem C6_contentType_dispatch (c : Context) (fields f1 : List Field)
    (hq : BindQueryParams fields c.request.query = (f1, none)) :
    (headerGet c.request.headers "Content-Type" = "application/json" →
      c.BindWithoutValidation fields = BindJSONBody f1 c.request.body) ∧
    (headerGet c.request.headers "Content-Type" ≠ "application/json" →
      c.BindWithoutValidation fields = (f1, none)) := by
  constructor <;> intro h <;> simp [Context.BindWithoutValidation, hq, h]

/-- Witness for C6: a JSON request reaches the body decode of the
query-bound fields, while a text/plain request with the same target skips
the body step. -/
theorem C6_contentType_dispatch_witness :
    Context.BindWithoutValidation
        ⟨none, emptyWriter,
          ⟨"POST", "/d", [("Content-Type", "application/json")], [], "\x7b\x7d"⟩⟩
        [⟨"Name", "", [], .vstr ""⟩] =
      BindJSONBody [⟨"Name", "", [], .vstr ""⟩] "\x7b\x7d" ∧
    Context.BindWithoutValidation
        ⟨none, emptyWriter, ⟨"POST", "/d", [("Content-Type", "text/plain")], [], "x"⟩⟩
        [⟨"Name", "", [], .vstr ""⟩] =
      ([⟨"Name", "", [], .vstr ""⟩], none) :=
  ⟨(C6_contentType_dispatch
      ⟨none, emptyWriter,
        ⟨"POST", "/d", [("Content-Type", "application/json")], [], "\x7b\x7d"⟩⟩
      [⟨"Name", "", [], .vstr ""⟩] [⟨"Name", "", [], .vstr ""⟩] rfl).1 rfl,
   (C6_contentType_dispatch
      ⟨none, emptyWriter, ⟨"POST", "/d", [("Content-Type", "text/plain")], [], "x"⟩⟩
      [⟨"Name", "", [], .vstr ""⟩] [⟨"Name", "", [], .vstr ""⟩] rfl).2 (by decide)⟩

/-- C2: when query coercion or body decoding fails,
`BindWithoutValidation` returns that raw underlying error unwrapped, and
`Bind` returns a 400 `*HttpError` with message "failed to read inputs"
whose cause is the underlying error — validation never runs on the
failure path. -/
theorem C2_bind_failure (c : Context) (fields : List Field) (e : String) :
    ((BindQueryParams fields c.request.query).2 = some e →
      (c.BindWithoutValidation fields).2 = some e) ∧
    (∀ f1, BindQueryParams fields c.request.query = (f1, none) →
      headerGet c.request.headers "Content-Type" = "application/json" →
      (BindJSONBody f1 c.request.body).2 = some e →
      (c.BindWithoutValidation fields).2 = some e) ∧
    ((c.BindWithoutValidation fields).2 = some e →
      (c.Bind fields).2 =
        some (.httpError "failed to read inputs" 400 (some (.plain e)))) := by
  refine ⟨fun h1 => ?_, fun f1 h1 h2 h3 => ?_, fun h1 => ?_⟩
  · rcases hp : BindQueryParams fields c.request.query with ⟨f0, e0⟩
    rw [hp] at h1
    simp at h1
    subst h1
    simp [Context.BindWithoutValidation, hp]
  · simp only [Context.BindWithoutValidation, h1, h2, if_pos]
    exact h3
  · rcases hb : c.BindWithoutValidation fields with ⟨f2, e2⟩
    rw [hb] at h1
    simp at h1
    subst h1
    simp [Context.Bind, hb, NewHttpError]

/-- Witness for C2 at a failing int coercion: query `age=abc` on an int
field. -/
theorem C2_bind_failure_witness :
    (Context.BindWithoutValidation
        ⟨none, emptyWriter, ⟨"GET", "/d", [], [("age", ["abc"])], ""⟩⟩ [ageField]).2 =
      some "failed to convert parameter age to int: strconv.Atoi: parsing \"abc\": invalid syntax" ∧
    (Context.Bind
        ⟨none, emptyWriter, ⟨"GET", "/d", [], [("age", ["abc"])], ""⟩⟩ [ageField]).2 =
      some (.httpError "failed to read inputs" 400 (some (.plain
        "failed to convert parameter age to int: strconv.Atoi: parsing \"abc\": invalid syntax"))) := by
  have h := C2_bind_failure
    ⟨none, emptyWriter, ⟨"GET", "/d", [], [("age", ["abc"])], ""⟩⟩ [ageField]
    "failed to convert parameter age to int: strconv.Atoi: parsing \"abc\": invalid syntax"
  have h1 : (BindQueryParams [ageField] [("age", ["abc"])]).2 =
      some "failed to convert parameter age to int: strconv.Atoi: parsing \"abc\": invalid syntax" :=
    rfl
  exact ⟨h.1 h1, h.2.2 (h.1 h1)⟩

/-! Lemmas: the query-binding loop. -/

theorem BindQueryParams_cons (f : Field) (rest : List Field)
    (params : List (String × List String)) :
    BindQueryParams (f :: rest) params =
      match bindField f params with
      | (f1, some e) => (f1 :: rest, some e)
      | (f1, none) =>
        let r1 := BindQueryParams rest params
        (f1 :: r1.1, r1.2) := by
  rw [BindQueryParams]

theorem bindField_skip (f : Field) (params : List (String × List String))
    (h : f.queryTag = "" ∨ queryGet params f.queryTag = none ∨
      queryGet params f.queryTag = some []) :
    bindField f params = (f, none) := by
  rcases h with h | h | h
  · simp [bindField, h]
  · by_cases ht : f.queryTag = ""
    · simp [bindField, ht]
    · simp [bindField, ht, h]
  · by_cases ht : f.queryTag = ""
    · simp [bindField, ht]
    · simp [bindField, ht, h]

theorem bindField_str (f : Field) (params : List (String × List String)) (v : String)
    (vs : List String) (s0 : String) (ht : f.queryTag ≠ "")
    (hq : queryGet params f.queryTag = some (v :: vs)) (hv : f.value = .vstr s0) :
    bindField f params = ({ f with value := .vstr v }, none) := by
  simp [bindField, ht, hq, hv]

theorem bindField_int_ok (f : Field) (params : List (String × List String)) (v : String)
    (vs : List String) (n0 n : Int) (ht : f.queryTag ≠ "")
    (hq : queryGet params f.queryTag = some (v :: vs)) (hv : f.value = .vint n0)
    (ha : strconvAtoi v = .ok n) :
    bindField f params = ({ f with value := .vint n }, none) := by
  simp [bindField, ht, hq, hv, ha]

theorem bindField_int_err (f : Field) (params : List (String × List String)) (v : String)
    (vs : List String) (n0 : Int) (emsg : String) (ht : f.queryTag ≠ "")
    (hq : queryGet params f.queryTag = some (v :: vs)) (hv : f.value = .vint n0)
    (ha : strconvAtoi v = .error emsg) :
    bindField f params =
      (f, some ("failed to convert parameter " ++ f.queryTag ++ " to int: " ++ emsg)) := by
  simp [bindField, ht, hq, hv, ha]

theorem bindField_error_fst (f : Field) (params : List (String × List String)) (e : String)
    (h : (bindField f params).2 = some e) : (bindField f params).1 = f := by
  by_cases ht : f.queryTag = ""
  · simp [bindField, ht] at h
  · rcases hq : queryGet params f.queryTag with - | vs
    · simp [bindField, ht, hq] at h
    · cases vs with
      | nil => simp [bindField, ht, hq] at h
      | cons v vs2 =>
        cases hv : f.value with
        | vstr s => simp [bindField, ht, hq, hv] at h
        | vint n =>
          cases ha : strconvAtoi v with
          | error e2 => simp [bindField, ht, hq, hv, ha]
          | ok m => simp [bindField, ht, hq, hv, ha] at h
        | vother => simp [bindField, ht, hq, hv] at h

theorem bqp_get (fields : List Field) (params : List (String × List String)) :
    ∀ i, (hi : i < fields.length) →
    (∀ j, (hj : j < i) → (bindField (fields.get ⟨j, Nat.lt_trans hj hi⟩) params).2 = none) →
    ((bindField (fields.get ⟨i, hi⟩) params).2 = none →
      (BindQueryParams fields params).1[i]? =
        some (bindField (fields.get ⟨i, hi⟩) params).1) ∧
    (∀ emsg, (bindField (fields.get ⟨i, hi⟩) params).2 = some emsg →
      (BindQueryParams fields params).2 = some emsg ∧
      ∀ k, (hk : k < fields.length) → i ≤ k →
        (BindQueryParams fields params).1[k]? = some (fields.get ⟨k, hk⟩)) := by
  induction fields with
  | nil => intro i hi; exact absurd hi (by simp)
  | cons f rest ih =>
    intro i hi hok
    cases i with
    | zero =>
      constructor
      · intro h0
        have h0' : (bindField f params).2 = none := h0
        rcases hbf : bindField f params with ⟨f1, e1⟩
        rw [hbf] at h0'
        simp at h0'
        subst h0'
        show (BindQueryParams (f :: rest) params).1[0]? = some (bindField f params).1
        rw [BindQueryParams_cons, hbf]
        simp
      · intro emsg h0
        have h0' : (bindField f params).2 = some emsg := h0
        have hfst := bindField_error_fst f params emsg h0'
        rcases hbf : bindField f params with ⟨f1, e1⟩
        rw [hbf] at h0' hfst
        simp at h0' hfst
        subst h0'
        subst hfst
        rw [BindQueryParams_cons, hbf]
        refine ⟨rfl, fun k hk hik => ?_⟩
        simp [List.getElem?_eq_getElem hk, List.get_eq_getElem]
    | succ j =>
      have hi' : j < rest.length := by simpa using hi
      have hbf0 : (bindField f params).2 = none := hok 0 (Nat.succ_pos j)
      rcases hbf : bindField f params with ⟨f1, e1⟩
      have he1 : e1 = none := by rw [hbf] at hbf0; exact hbf0
      subst he1
      have hok' : ∀ jj, (hjj : jj < j) →
          (bindField (rest.get ⟨jj, Nat.lt_trans hjj hi'⟩) params).2 = none := by
        intro jj hjj
        have := hok (jj + 1) (Nat.succ_lt_succ hjj)
        simpa using this
      have hrec := ih j hi' hok'
      have hcons : BindQueryParams (f :: rest) params =
          (f1 :: (BindQueryParams rest params).1, (BindQueryParams rest params).2) := by
        rw [BindQueryParams_cons, hbf]
      constructor
      · intro h0
        have h0' : (bindField (rest.get ⟨j, hi'⟩) params).2 = none := by simpa using h0
        have := hrec.1 h0'
        rw [hcons]
        simpa using this
      · intro emsg h0
        have h0' : (bindField (rest.get ⟨j, hi'⟩) params).2 = some emsg := by
          simpa using h0
        obtain ⟨ha, hb⟩ := hrec.2 emsg h0'
        rw [hcons]
        refine ⟨ha, fun k hk hik => ?_⟩
        cases k with
        | zero => omega
        | succ k2 =>
          have hk2 : k2 < rest.length := by simpa using hk
          have := hb k2 hk2 (by omega)
          simpa using this

/-- C3: in the `BindQueryParams` loop, while no earlier field has failed:
a field with a query tag whose parameter is present with at least one
value receives the first value — assigned directly into a string field,
parsed base-10 into an int field; a field whose tag is empty or whose
parameter is absent (or present with no values) keeps its previous —
zero — value; and a failing int parse returns the error naming the
parameter and the parse failure and stops the loop, leaving the failing
field and every later field unattempted. -/
theorem C3_bindQueryParams (fields : List Field) (params : List (String × List String))
    (i : Nat) (hi : i < fields.length)
    (hok : ∀ j, (hj : j < i) → (bindField (fields.get ⟨j, Nat.lt_trans hj hi⟩) params).2 = none) :
    ((fields.get ⟨i, hi⟩).queryTag = "" ∨
        queryGet params (fields.get ⟨i, hi⟩).queryTag = none ∨
        queryGet params (fields.get ⟨i, hi⟩).queryTag = some [] →
      (BindQueryParams fields params).1[i]? = some (fields.get ⟨i, hi⟩)) ∧
    (∀ v vs s0, (fields.get ⟨i, hi⟩).queryTag ≠ "" →
      queryGet params (fields.get ⟨i, hi⟩).queryTag = some (v :: vs) →
      (fields.get ⟨i, hi⟩).value = .vstr s0 →
      (BindQueryParams fields params).1[i]? =
        some { fields.get ⟨i, hi⟩ with value := .vstr v }) ∧
    (∀ v vs n0 n, (fields.get ⟨i, hi⟩).queryTag ≠ "" →
      queryGet params (fields.get ⟨i, hi⟩).queryTag = some (v :: vs) →
      (fields.get ⟨i, hi⟩).value = .vint n0 →
      strconvAtoi v = .ok n →
      (BindQueryParams fields params).1[i]? =
        some { fields.get ⟨i, hi⟩ with value := .vint n }) ∧
    (∀ v vs n0 emsg, (fields.get ⟨i, hi⟩).queryTag ≠ "" →
      queryGet params (fields.get ⟨i, hi⟩).queryTag = some (v :: vs) →
      (fields.get ⟨i, hi⟩).value = .vint n0 →
      strconvAtoi v = .error emsg →
      (BindQueryParams fields params).2 =
        some ("failed to convert parameter " ++ (fields.get ⟨i, hi⟩).queryTag ++
          " to int: " ++ emsg) ∧
      ∀ k, (hk : k < fields.length) → i ≤ k →
        (BindQueryParams fields params).1[k]? = some (fields.get ⟨k, hk⟩)) := by
  have hg := bqp_get fields params i hi hok
  refine ⟨fun h => ?_, fun v vs s0 ht hq hv => ?_, fun v vs n0 n ht hq hv ha => ?_,
    fun v vs n0 emsg ht hq hv ha => ?_⟩
  · have hbf := bindField_skip (fields.get ⟨i, hi⟩) params h
    have hres := hg.1 (by rw [hbf])
    rwa [hbf] at hres
  · have hbf := bindField_str (fields.get ⟨i, hi⟩) params v vs s0 ht hq hv
    have hres := hg.1 (by rw [hbf])
    rwa [hbf] at hres
  · have hbf := bindField_int_ok (fields.get ⟨i, hi⟩) params v vs n0 n ht hq hv ha
    have hres := hg.1 (by rw [hbf])
    rwa [hbf] at hres
  · have hbf := bindField_int_err (fields.get ⟨i, hi⟩) params v vs n0 emsg ht hq hv ha
    exact hg.2 _ (by rw [hbf])

/-- Witness for C3: binding `[Name, Age]` against `age=42&name=Bob`
coerces the int field at index 1 to 42 after the string field bound
without error. -/
theorem C3_bindQueryParams_witness :
    (BindQueryParams [nameField, ageField] [("age", ["42"]), ("name", ["Bob"])]).1[1]? =
      some ⟨"Age", "age", [], .vint 42⟩ := by
  have h := C3_bindQueryParams [nameField, ageField] [("age", ["42"]), ("name", ["Bob"])] 1
    (by decide) (fun j hj => by interval_cases j; rfl)
  exact h.2.2.1 "42" [] 0 42 (by decide) rfl rfl rfl

/-- C4 (amended): when binding succeeds but validation fails on one or
more fields, `Bind` returns a 400 `*HttpError` with nil cause whose
message is the prefix "validation error(s): " followed by the per-field
diagnostics "validation failed for <field>" joined with ", " — the claim
as written omits the prefix. -/
theorem C4_validation_message (c : Context) (fields f1 : List Field)
    (h1 : c.BindWithoutValidation fields = (f1, none)) (h2 : validateStruct f1 ≠ []) :
    (c.Bind fields).2 = some (.httpError
      ("validation error(s): " ++ String.intercalate ", "
        ((validateStruct f1).map fun n => "validation failed for " ++ n)) 400 none) := by
  cases hv : validateStruct f1 with
  | nil => exact absurd hv h2
  | cons a as => simp [Context.Bind, h1, hv, NewHttpError]

/-- C4 counterexample: a target whose only field is required and empty
binds successfully and fails validation; `Bind`'s message is
"validation error(s): validation failed for Name", not the bare joined
diagnostics "validation failed for Name" the claim asserts. -/
theorem C4_validation_message_counterexample :
    (Context.Bind ⟨none, emptyWriter, sampleRequest⟩ [requiredNameField]).2 =
      some (.httpError "validation error(s): validation failed for Name" 400 none) ∧
    "validation error(s): validation failed for Name" ≠ "validation failed for Name" :=
  ⟨rfl, by decide⟩

/-- Witness for C4 (amended) at a failing numeric-bound constraint. -/
theorem C4_validation_message_witness :
    (Context.Bind ⟨none, emptyWriter, sampleRequest⟩ [⟨"Age", "", [.gte 1], .vint 0⟩]).2 =
      some (.httpError "validation error(s): validation failed for Age" 400 none) := by
  have h := C4_validation_message ⟨none, emptyWriter, sampleRequest⟩
    [⟨"Age", "", [.gte 1], .vint 0⟩] [⟨"Age", "", [.gte 1], .vint 0⟩] rfl (by decide)
  simpa using h

/-! Lemmas: the body decoder's frame property. -/

theorem decodeFields_cons (f : Field) (rest : List Field) (ms : List (String × Json)) :
    decodeFields (f :: rest) ms =
      match jsonLookup ms f.name with
      | none =>
        match decodeFields rest ms with
        | some rest1 => some (f :: rest1)
        | none => none
      | some j =>
        match setFieldFromJson f j with
        | some f1 =>
          match decodeFields rest ms with
          | some rest1 => some (f1 :: rest1)
          | none => none
        | none => none := by
  rw [decodeFields]

theorem decodeFields_unmentioned (fields : List Field) (ms : List (String × Json)) :
    ∀ out, decodeFields fields ms = some out →
    ∀ i, (hi : i < fields.length) →
    jsonLookup ms (fields.get ⟨i, hi⟩).name = none →
    out[i]? = some (fields.get ⟨i, hi⟩) := by
  induction fields with
  | nil => intro out h i hi; exact absurd hi (by simp)
  | cons f rest ih =>
    intro out h i hi hlk
    rw [decodeFields_cons] at h
    cases i with
    | zero =>
      have hlk0 : jsonLookup ms f.name = none := hlk
      rw [hlk0] at h
      cases hd : decodeFields rest ms with
      | none => rw [hd] at h; cases h
      | some rest1 =>
        rw [hd] at h
        simp at h
        subst h
        simp
    | succ j =>
      have hi' : j < rest.length := by simpa using hi
      have hlk' : jsonLookup ms (rest.get ⟨j, hi'⟩).name = none := by simpa using hlk
      cases hl0 : jsonLookup ms f.name with
      | none =>
        rw [hl0] at h
        cases hd : decodeFields rest ms with
        | none => rw [hd] at h; cases h
        | some rest1 =>
          rw [hd] at h
          simp at h
          subst h
          have := ih rest1 hd j hi' hlk'
          simpa using this
      | some jv =>
        simp only [hl0] at h
        cases hs : setFieldFromJson f jv with
        | none => simp only [hs] at h; cases h
        | some f2 =>
          simp only [hs] at h
          cases hd : decodeFields rest ms with
          | none => simp only [hd] at h; cases h
          | some rest1 =>
            simp only [hd] at h
            simp at h
            subst h
            have := ih rest1 hd j hi' hlk'
            simpa using this

/-- C9: `BindWithoutValidation` runs query coercion first and feeds its
output to the body step; on a successful bind, any field whose name the
JSON body does not mention — or any field at all when the content type
is not "application/json" — keeps exactly its query-coerced value. -/
theorem C9_body_frame (c : Context) (fields f1 fOut : List Field)
    (hq : BindQueryParams fields c.request.query = (f1, none))
    (hb : c.BindWithoutValidation fields = (fOut, none)) :
    (headerGet c.request.headers "Content-Type" = "application/json" →
      BindJSONBody f1 c.request.body = (fOut, none)) ∧
    ∀ i, (hi : i < f1.length) →
      (headerGet c.request.headers "Content-Type" ≠ "application/json" ∨
        jsonLookup (bodyMembers c.request.body) (f1.get ⟨i, hi⟩).name = none) →
      fOut[i]? = some (f1.get ⟨i, hi⟩) := by
  by_cases hct : headerGet c.request.headers "Content-Type" = "application/json"
  · have hstep : BindJSONBody f1 c.request.body = (fOut, none) := by
      have hb' := hb
      simp only [Context.BindWithoutValidation, hq] at hb'
      rw [if_pos hct] at hb'
      exact hb'
    refine ⟨fun _ => hstep, fun i hi hdisj => ?_⟩
    rcases hdisj with hnot | hlk
    · exact absurd hct hnot
    · have hstep' := hstep
      rw [BindJSONBody] at hstep'
      rcases hdj : deserializeJson c.request.body with - | v
      · rw [hdj] at hstep'
        simp at hstep'
      · cases v with
        | obj ms =>
          simp only [hdj] at hstep'
          cases hdf : decodeFields f1 ms with
          | none => simp only [hdf] at hstep'; simp at hstep'
          | some out =>
            simp only [hdf] at hstep'
            simp at hstep'
            have hlk2 : jsonLookup ms (f1.get ⟨i, hi⟩).name = none := by
              have hbm : bodyMembers c.request.body = ms := by
                rw [bodyMembers, hdj]
              rwa [hbm] at hlk
            have hframe := decodeFields_unmentioned f1 ms out hdf i hi hlk2
            rw [← hstep']
            exact hframe
        | null => rw [hdj] at hstep'; simp at hstep'
        | bool b => rw [hdj] at hstep'; simp at hstep'
        | num n => rw [hdj] at hstep'; simp at hstep'
        | str s => rw [hdj] at hstep'; simp at hstep'
        | arr l => rw [hdj] at hstep'; simp at hstep'
  · have hstep : (f1, (none : Option String)) = (fOut, none) := by
      have hb' := hb
      simp only [Context.BindWithoutValidation, hq] at hb'
      rw [if_neg hct] at hb'
      exact hb'
    have hf : f1 = fOut := by
      have := congrArg Prod.fst hstep
      simpa using this
    refine ⟨fun h => absurd h hct, fun i hi _ => ?_⟩
    rw [← hf]
    simp [List.getElem?_eq_getElem hi, List.get_eq_getElem]

/-- Witness for C9: with query `age=42` and JSON body mentioning only
"name", the age field keeps its query-coerced value 42 after the body
step. -/
theorem C9_body_frame_witness :
    (Context.BindWithoutValidation
        ⟨none, emptyWriter, ⟨"POST", "/d", [("Content-Type", "application/json")],
          [("age", ["42"])], "\x7b\"name\":\"Bob\"\x7d"⟩⟩
        [nameField, ageField]).1[1]? = some ⟨"Age", "age", [], .vint 42⟩ := by
  have h := C9_body_frame
    ⟨none, emptyWriter, ⟨"POST", "/d", [("Content-Type", "application/json")],
      [("age", ["42"])], "\x7b\"name\":\"Bob\"\x7d"⟩⟩
    [nameField, ageField]
    [⟨"Name", "name", [], .vstr ""⟩, ⟨"Age", "age", [], .vint 42⟩]
    [⟨"Name", "name", [], .vstr "Bob"⟩, ⟨"Age", "age", [], .vint 42⟩]
    rfl rfl
  exact h.2 1 (by decide) (Or.inr rfl)

end Apictx
